import Mathlib

/-!
# Verification of the `rio` DOM rendering core

A shallow embedding, in Lean 4, of the HTML document-tree builder and
streaming serializer of the `dom` package (file `dom/dom.go`) together
with the HTTP adapter (`Handler`).  Go strings are modelled as Lean
`String`s, an `io.Writer` as a `Sink` that decides per write call
whether the call succeeds or fails with an error value (matching the
`errorWriter` test double of the repository: a failing call writes
nothing and returns the error), and a `Render` method as a function
threading a writer state and returning the first error, if any, as
`Option String`.
-/

namespace RioDom

/-- The error type: a Go `error` value is identified by its message.
Returning "that exact error" is modelled as returning the same string. -/
abbrev Err := String

/-- A byte sink (`io.Writer`).  `failAt k` tells whether the `k`-th
write call (0-based) fails, and with which error.  A failing call
writes nothing, like the `errorWriter` test double of the repository. -/
structure Sink where
  failAt : Nat → Option Err

/-- A sink on which every write succeeds (e.g. `strings.Builder`). -/
def okSink : Sink := ⟨fun _ => none⟩

/-- A sink that fails every write call with error `e`. -/
def allFailSink (e : Err) : Sink := ⟨fun _ => some e⟩

/-- A sink that fails only the `n`-th write call (0-based) with `e`. -/
def failNthSink (n : Nat) (e : Err) : Sink :=
  ⟨fun k => if k = n then some e else none⟩

/-- Writer state: the bytes written so far and the number of write
calls issued so far. -/
structure WState where
  out : String
  count : Nat
deriving DecidableEq, Repr

/-- The initial writer state. -/
def st0 : WState := ⟨"", 0⟩

/-- One write call (`w.Write` / `io.WriteString`): consult the failure
schedule of the sink at the current call number; on success append the
bytes, on failure append nothing; either way the call number advances. -/
def wwrite (sink : Sink) (s : String) (st : WState) : WState × Option Err :=
  match sink.failAt st.count with
  | some e => (⟨st.out, st.count + 1⟩, some e)
  | none   => (⟨st.out ++ s, st.count + 1⟩, none)

/-- Sequencing with the Go `if err != nil` early-return idiom. -/
def andThen (r : WState × Option Err) (k : WState → WState × Option Err) :
    WState × Option Err :=
  match r with
  | (st, some e) => (st, some e)
  | (st, none) => k st

/-- The per-character replacement table of `html/template.HTMLEscape`
(`text/template/funcs.go`): the double quote becomes `&#34;`, the
apostrophe becomes `&#39;`, `&` becomes `&amp;`, `<` becomes `&lt;`,
`>` becomes `&gt;`, and NUL becomes the Unicode replacement character
U+FFFD; every other character is left alone (`none`). -/
def escRepl (c : Char) : Option String :=
  if c = Char.ofNat 0 then some "�"
  else if c = Char.ofNat 34 then some "&#34;"
  else if c = Char.ofNat 39 then some "&#39;"
  else if c = Char.ofNat 38 then some "&amp;"
  else if c = Char.ofNat 60 then some "&lt;"
  else if c = Char.ofNat 62 then some "&gt;"
  else none

/-- The sequence of write calls `template.HTMLEscape(w, b)` issues:
for each character needing replacement it writes the pending verbatim
chunk `b[last:i]` (possibly empty) and then the replacement; at the end
it writes the final chunk `b[last:]` (possibly empty).  `acc` is the
pending chunk. -/
def escChunks : List Char → String → List String
  | [], acc => [acc]
  | c :: cs, acc =>
    match escRepl c with
    | some ent => acc :: ent :: escChunks cs ""
    | none => escChunks cs (acc.push c)

/-- `template.HTMLEscape(w, []byte(s))`: issue the write calls of
`escChunks`, ignoring every error (the function has no error return). -/
def htmlEscapeW (sink : Sink) (s : String) (st : WState) : WState :=
  (escChunks s.data "").foldl (fun st chunk => (wwrite sink chunk st).1) st

/-- The character set consulted by `needsEscaping`, in source order:
apostrophe, double quote, `&`, `<`, `>`, NUL (the set passed to
`strings.ContainsAny`). -/
def escapeSet : List Char :=
  [Char.ofNat 39, Char.ofNat 34, Char.ofNat 38, Char.ofNat 60,
   Char.ofNat 62, Char.ofNat 0]

/-- `needsEscaping`: does the string contain a character that requires
HTML escaping? -/
def needsEscaping (s : String) : Bool :=
  s.data.any (fun c => escapeSet.contains c)

/-- The closed set of `Node` variants of the `dom` package.  A Go `nil`
entry in a child list is `Option.none`; the generic `nodeMapper` is
treated separately (see `renderMap`) because its item type is
arbitrary. -/
inductive Node where
  /-- `htmlElement`: tag name, void flag, ordered child list. -/
  | element (name : String) (isVoid : Bool) (children : List (Option Node))
  /-- `htmlAttr`: attribute name and value. -/
  | attr (name value : String)
  /-- `htmlSafe`: a string escaped on render. -/
  | safe (s : String)
  /-- `htmlRaw`: a string rendered verbatim. -/
  | raw (s : String)
  /-- `Group`: an ordered list of Nodes rendered by concatenation. -/
  | group (nodes : List (Option Node))
  /-- `htmlDoctype`: the literal `<!DOCTYPE html>` then a sibling. -/
  | doctype (sibling : Option Node)
deriving Repr

/-- Which variants implement `HtmlAttributer` (only `htmlAttr` does). -/
def Node.isAttr : Node → Bool
  | .attr _ _ => true
  | _ => false

/-- `htmlAttr.Render`: space, name; stop if the value is empty;
otherwise `="`, the value (escaped through `template.HTMLEscape`, whose
write errors are ignored, when `needsEscaping`, else verbatim with its
write error checked), closing `"`. -/
def renderAttr (name value : String) (sink : Sink) (st : WState) :
    WState × Option Err :=
  andThen (wwrite sink " " st) fun st =>
  andThen (wwrite sink name st) fun st =>
  if value = "" then (st, none)
  else
    andThen (wwrite sink "=\"" st) fun st =>
    if needsEscaping value then
      wwrite sink "\"" (htmlEscapeW sink value st)
    else
      andThen (wwrite sink value st) fun st =>
      wwrite sink "\"" st

/-- `htmlSafe.Render`: escape through `template.HTMLEscape` (errors
ignored, `nil` returned) when `needsEscaping`, else one verbatim write
whose error is returned. -/
def renderSafe (s : String) (sink : Sink) (st : WState) :
    WState × Option Err :=
  if needsEscaping s then (htmlEscapeW sink s st, none)
  else wwrite sink s st

mutual

/-- `Node.Render`, variant by variant, faithful to `dom/dom.go`. -/
def render : Node → Sink → WState → WState × Option Err
  | .element name isVoid children, sink, st =>
    andThen (wwrite sink "<" st) fun st =>
    andThen (wwrite sink name st) fun st =>
    andThen (renderAttrPhase children sink st) fun st =>
    andThen (wwrite sink ">" st) fun st =>
    if isVoid then (st, none)
    else
      andThen (renderChildPhase children sink st) fun st =>
      andThen (wwrite sink "</" st) fun st =>
      andThen (wwrite sink name st) fun st =>
      wwrite sink ">" st
  | .attr name value, sink, st => renderAttr name value sink st
  | .safe s, sink, st => renderSafe s sink st
  | .raw s, sink, st => wwrite sink s st
  | .group nodes, sink, st => renderOptList nodes sink st
  | .doctype sibling, sink, st =>
    andThen (wwrite sink "<!DOCTYPE html>" st) fun st =>
    match sibling with
    | some n => render n sink st
    | none => (st, none)

/-- First pass of `htmlElement.Render`: every non-nil child that is an
`HtmlAttributer` is rendered as an attribute (`RenderAttribute`, which
for `htmlAttr` just calls `Render`), aborting on the first error. -/
def renderAttrPhase : List (Option Node) → Sink → WState → WState × Option Err
  | [], _, st => (st, none)
  | none :: rest, sink, st => renderAttrPhase rest sink st
  | some (.attr a v) :: rest, sink, st =>
    andThen (renderAttr a v sink st) fun st => renderAttrPhase rest sink st
  | some _ :: rest, sink, st => renderAttrPhase rest sink st

/-- Second pass of `htmlElement.Render`: every non-nil child that is
not an `HtmlAttributer` is rendered, aborting on the first error. -/
def renderChildPhase : List (Option Node) → Sink → WState → WState × Option Err
  | [], _, st => (st, none)
  | none :: rest, sink, st => renderChildPhase rest sink st
  | some (.attr _ _) :: rest, sink, st => renderChildPhase rest sink st
  | some n :: rest, sink, st =>
    andThen (render n sink st) fun st => renderChildPhase rest sink st

/-- `Group.Render` (and the body of `nodeMapper.Render`): render each
non-nil entry in order, aborting on the first error. -/
def renderOptList : List (Option Node) → Sink → WState → WState × Option Err
  | [], _, st => (st, none)
  | none :: rest, sink, st => renderOptList rest sink st
  | some n :: rest, sink, st =>
    andThen (render n sink st) fun st => renderOptList rest sink st

end

/-- `nodeMapper.Render`: apply the transform to each item in order and
render each non-nil produced Node immediately, aborting on the first
error.  In a pure embedding this is exactly rendering the mapped list
(`fn` has no side effects in Lean, so no observable materialization
happens). -/
def renderMap {α : Type} (items : List α) (fn : α → Option Node)
    (sink : Sink) (st : WState) : WState × Option Err :=
  renderOptList (items.map fn) sink st

/-- The shared `emptyNode` sentinel: `htmlRaw("")`. -/
def emptyNode : Node := .raw ""

/-- `If(condition, a)`. -/
def ifNode (condition : Bool) (a : Node) : Node :=
  if condition then a else emptyNode

/-- `Ifelse(condition, a, b)`. -/
def ifelse (condition : Bool) (a b : Node) : Node :=
  if condition then a else b

/-- The `String()` convenience: render into an in-memory builder, which
never fails, and take the bytes. -/
def renderString (n : Node) : String := (render n okSink st0).1.out

/-- The full replacement for one character: the table entry when the
character has one, the character itself otherwise. -/
def escOne (c : Char) : String := (escRepl c).getD (String.singleton c)

/-- The bytes `template.HTMLEscape` produces on a sink that never
fails: each character replaced by `escOne`. -/
def htmlEscapeStr (s : String) : String := String.join (s.data.map escOne)

/-- The non-nil entries of a child list (the children a render loop
actually visits). -/
def kids (cs : List (Option Node)) : List Node := cs.filterMap id

/-- The non-nil `HtmlAttributer` children, in relative order. -/
def attrKids (cs : List (Option Node)) : List Node :=
  (kids cs).filter Node.isAttr

/-- The non-nil non-attribute children, in relative order. -/
def contentKids (cs : List (Option Node)) : List Node :=
  (kids cs).filter (fun n => !n.isAttr)

/-- Keep only the child-list entries that survive a void render:
non-nil `HtmlAttributer` children. -/
def attrEntriesOnly (cs : List (Option Node)) : List (Option Node) :=
  cs.filter (fun o => match o with
    | some n => n.isAttr
    | none => false)

/-- Modelled from the spec, for comparison with the source fast path:
`htmlSafe.Render` with the `needsEscaping` check removed, always
running the escape routine. -/
def renderSafeNoCheck (s : String) (sink : Sink) (st : WState) :
    WState × Option Err :=
  (htmlEscapeW sink s st, none)

/-- Modelled from the spec, for comparison with the source fast path:
`htmlAttr.Render` with the `needsEscaping` check removed, always
running the escape routine on a non-empty value. -/
def renderAttrNoCheck (name value : String) (sink : Sink) (st : WState) :
    WState × Option Err :=
  andThen (wwrite sink " " st) fun st =>
  andThen (wwrite sink name st) fun st =>
  if value = "" then (st, none)
  else
    andThen (wwrite sink "=\"" st) fun st =>
    wwrite sink "\"" (htmlEscapeW sink value st)

/-- Modelled from the spec: a string has the form of an HTML character
entity (named or numeric) when it starts with `&` and ends with `;`.
Used only to compare the source NUL replacement against the
specification wording "standard named/numeric HTML entity
equivalents". -/
def isEntityForm (s : String) : Bool :=
  decide (s.data.head? = some (Char.ofNat 38)) &&
  decide (s.data.getLast? = some (Char.ofNat 59))

/-- The state of an `http.ResponseWriter`: the status line once
committed, and the underlying writer state.  `net/http` commits the
status on the first `WriteHeader` call or implicitly, as 200, on the
first body `Write` call; later `WriteHeader` calls are ignored. -/
structure RWState where
  status : Option Nat
  w : WState
deriving DecidableEq, Repr

/-- A fresh response writer: nothing committed, nothing written. -/
def rw0 : RWState := ⟨none, st0⟩

/-- `WriteHeader(code)`: commit the status, unless one is already
committed (a superfluous call is ignored by `net/http`). -/
def writeHeader (code : Nat) (rw : RWState) : RWState :=
  match rw.status with
  | some _ => rw
  | none => ⟨some code, rw.w⟩

/-- `node.Render(w)` against a response writer.  Every write the render
issues goes through `ResponseWriter.Write`, whose first call commits
status 200 implicitly; so after the render the header is committed as
200 exactly when the render issued at least one write call. -/
def runNode (n : Node) (sink : Sink) (rw : RWState) : RWState × Option Err :=
  match render n sink rw.w with
  | (w, e) =>
    if rw.w.count < w.count then (⟨(writeHeader 200 rw).status, w⟩, e)
    else (⟨rw.status, w⟩, e)

/-- `http.StatusText(http.StatusInternalServerError)`. -/
def statusText500 : String := "Internal Server Error"

/-- `http.Error(w, msg, code)`: set the error headers, `WriteHeader(code)`,
then `fmt.Fprintln(w, msg)` — a single write of the message followed by
a newline, whose own error is discarded. -/
def httpError (sink : Sink) (code : Nat) (msg : String) (rw : RWState) :
    RWState :=
  let rw2 := writeHeader code rw
  ⟨rw2.status, (wwrite sink (msg ++ "\n") rw2.w).1⟩

/-- `Handler`: the middleware body, after the callback has been invoked
(exactly once, `node := next(w, r)`) and returned `next`.  A nil Node
or a render error is answered through `http.Error` with status 500 and
the `http.StatusText` message; otherwise the rendered bytes stand. -/
def handler (next : Option Node) (sink : Sink) (rw : RWState) : RWState :=
  match next with
  | none => httpError sink 500 statusText500 rw
  | some n =>
    match runNode n sink rw with
    | (rw, some _) => httpError sink 500 statusText500 rw
    | (rw, none) => rw

/-- Success-shift property of a writer-state transformer on `okSink`:
it appends a fixed string, advances the call count by a fixed amount,
and reports no error, from any starting state. -/
def ShiftOK (f : WState → WState × Option Err) (o : String) (k : Nat) : Prop :=
  ∀ st, f st = (⟨st.out ++ o, st.count + k⟩, none)

/-- A Node render on `okSink` appends its `renderString` bytes and some
fixed number of write calls, from any starting state, with no error. -/
def RenderOK (n : Node) : Prop :=
  ∃ k, ShiftOK (render n okSink) (renderString n) k

/-- The number of write calls a render issues on a never-failing sink. -/
def renderCnt (n : Node) : Nat := (render n okSink st0).1.count

/-- The bytes `htmlAttr.Render` produces on a never-failing sink. -/
def attrOut (name value : String) : String :=
  if value = "" then " " ++ name
  else " " ++ name ++ "=\"" ++
    (if needsEscaping value then htmlEscapeStr value else value) ++ "\""

theorem join_cons (w : String) (rest : List String) :
    String.join (w :: rest) = w ++ String.join rest := by
  simp only [String.join_eq, List.map_cons, List.flatten_cons]; rfl

theorem wwrite_ok (s : String) (st : WState) :
    wwrite okSink s st = (⟨st.out ++ s, st.count + 1⟩, none) := rfl

theorem andThen_ok (st : WState) (g : WState → WState × Option Err) :
    andThen (st, none) g = g st := rfl

theorem andThen_err (st : WState) (e : Err) (g : WState → WState × Option Err) :
    andThen (st, some e) g = (st, some e) := rfl

theorem foldl_wwrite_ok (ws : List String) (st : WState) :
    ws.foldl (fun st chunk => (wwrite okSink chunk st).1) st
      = ⟨st.out ++ String.join ws, st.count + ws.length⟩ := by
  induction ws generalizing st with
  | nil => simp [String.join]
  | cons w rest ih =>
    simp only [List.foldl_cons]
    rw [show (wwrite okSink w st).1 = ⟨st.out ++ w, st.count + 1⟩ from rfl, ih]
    simp only [join_cons, String.append_assoc, List.length_cons]
    congr 1
    omega

theorem escChunks_join (cs : List Char) (acc : String) :
    String.join (escChunks cs acc) = acc ++ String.join (cs.map escOne) := by
  induction cs generalizing acc with
  | nil => simp [escChunks, join_cons]
  | cons c cs ih =>
    cases h : escRepl c with
    | some ent =>
      have he : escOne c = ent := by simp [escOne, h]
      simp only [escChunks, h, join_cons, ih, List.map_cons, he]
      simp [String.append_assoc]
    | none =>
      have he : escOne c = String.singleton c := by simp [escOne, h]
      have hp : acc.push c = acc ++ String.singleton c := rfl
      simp only [escChunks, h, ih, List.map_cons, join_cons, he, hp]
      simp [String.append_assoc]

theorem htmlEscapeW_ok (s : String) (st : WState) :
    htmlEscapeW okSink s st
      = ⟨st.out ++ htmlEscapeStr s, st.count + (escChunks s.data "").length⟩ := by
  unfold htmlEscapeW
  rw [foldl_wwrite_ok]
  have h : String.join (escChunks s.data "") = htmlEscapeStr s := by
    rw [escChunks_join]; simp [htmlEscapeStr]
  rw [h]

theorem escRepl_eq_none (c : Char) (h : c ∉ escapeSet) : escRepl c = none := by
  have h0 : ¬ c = Char.ofNat 0 := fun e => h (by simp [escapeSet, e])
  have h34 : ¬ c = Char.ofNat 34 := fun e => h (by simp [escapeSet, e])
  have h39 : ¬ c = Char.ofNat 39 := fun e => h (by simp [escapeSet, e])
  have h38 : ¬ c = Char.ofNat 38 := fun e => h (by simp [escapeSet, e])
  have h60 : ¬ c = Char.ofNat 60 := fun e => h (by simp [escapeSet, e])
  have h62 : ¬ c = Char.ofNat 62 := fun e => h (by simp [escapeSet, e])
  simp [escRepl, h0, h34, h39, h38, h60, h62]

theorem join_singletons (cs : List Char) :
    String.join (cs.map String.singleton) = ⟨cs⟩ := by
  induction cs with
  | nil => rfl
  | cons c cs ih => simp only [List.map_cons, join_cons, ih]; rfl

theorem not_mem_escapeSet (c : Char) (s : String)
    (h : needsEscaping s = false) (hc : c ∈ s.data) : c ∉ escapeSet := by
  intro hmem
  have ht : needsEscaping s = true := by
    simp [needsEscaping, List.any_eq_true]
    exact ⟨c, hc, by simpa using hmem⟩
  simp [ht] at h

theorem htmlEscapeStr_id (s : String) (h : needsEscaping s = false) :
    htmlEscapeStr s = s := by
  unfold htmlEscapeStr
  have hall : ∀ c ∈ s.data, escOne c = String.singleton c := by
    intro c hc
    simp [escOne, escRepl_eq_none c (not_mem_escapeSet c s h hc)]
  rw [List.map_congr_left hall, join_singletons]

theorem renderSafe_shift (s : String) :
    ∃ k, ShiftOK (renderSafe s okSink)
      (if needsEscaping s then htmlEscapeStr s else s) k := by
  by_cases h : needsEscaping s = true
  · exact ⟨(escChunks s.data "").length, fun st => by
      simp [renderSafe, h, htmlEscapeW_ok]⟩
  · exact ⟨1, fun st => by
      simp at h
      simp [renderSafe, h, wwrite_ok]⟩

theorem renderAttr_shift (name value : String) :
    ∃ k, ShiftOK (renderAttr name value okSink) (attrOut name value) k := by
  by_cases hv : value = ""
  · exact ⟨2, fun st => by
      simp [renderAttr, attrOut, hv, wwrite_ok, andThen_ok, String.append_assoc]⟩
  · by_cases he : needsEscaping value = true
    · refine ⟨3 + (escChunks value.data "").length + 1, fun st => ?_⟩
      simp only [renderAttr, attrOut, hv, he, if_true, wwrite_ok,
        andThen_ok, htmlEscapeW_ok, if_false, Prod.mk.injEq, WState.mk.injEq,
        and_true]
      constructor
      · simp [String.append_assoc]
      · omega
    · simp only [Bool.not_eq_true] at he
      refine ⟨5, fun st => ?_⟩
      simp only [renderAttr, attrOut, hv, he, wwrite_ok,
        andThen_ok, Bool.false_eq_true, if_false, Prod.mk.injEq,
        WState.mk.injEq, and_true]
      simp [String.append_assoc]

theorem shift_seq {f g : WState → WState × Option Err} {o1 o2 : String}
    {k1 k2 : Nat} (hf : ShiftOK f o1 k1) (hg : ShiftOK g o2 k2) :
    ShiftOK (fun st => andThen (f st) g) (o1 ++ o2) (k1 + k2) := by
  intro st
  show andThen (f st) g = _
  rw [hf st, andThen_ok, hg]
  simp only [Prod.mk.injEq, WState.mk.injEq, and_true]
  exact ⟨by simp [String.append_assoc], by omega⟩

theorem toRenderOK {n : Node}
    (h : ∃ o k, ShiftOK (render n okSink) o k) : RenderOK n := by
  obtain ⟨o, k, hs⟩ := h
  have h0 := hs st0
  refine ⟨k, fun st => ?_⟩
  have ho : renderString n = o := by
    unfold renderString; rw [h0]; simp [st0]
  rw [hs st, ho]

theorem renderString_attr (a v : String) :
    renderString (Node.attr a v) = attrOut a v := by
  obtain ⟨k, h⟩ := renderAttr_shift a v
  unfold renderString
  have : render (Node.attr a v) okSink st0 = renderAttr a v okSink st0 := by
    simp [render]
  rw [this, h st0]
  simp [st0]

theorem attrKids_nil : attrKids [] = [] := rfl

theorem attrKids_none (cs : List (Option Node)) :
    attrKids (none :: cs) = attrKids cs := rfl

theorem attrKids_some (n : Node) (cs : List (Option Node)) :
    attrKids (some n :: cs)
      = if n.isAttr then n :: attrKids cs else attrKids cs := by
  simp only [attrKids, kids, List.filterMap_cons]
  cases h : n.isAttr <;> simp [List.filter_cons, h]

theorem contentKids_nil : contentKids [] = [] := rfl

theorem contentKids_none (cs : List (Option Node)) :
    contentKids (none :: cs) = contentKids cs := rfl

theorem contentKids_some (n : Node) (cs : List (Option Node)) :
    contentKids (some n :: cs)
      = if n.isAttr then contentKids cs else n :: contentKids cs := by
  simp only [contentKids, kids, List.filterMap_cons]
  cases h : n.isAttr <;> simp [List.filter_cons, h]

theorem kids_some (n : Node) (cs : List (Option Node)) :
    kids (some n :: cs) = n :: kids cs := by
  simp [kids]

theorem attrPhase_shift (cs : List (Option Node)) :
    ∃ k, ShiftOK (renderAttrPhase cs okSink)
      (String.join ((attrKids cs).map renderString)) k := by
  induction cs with
  | nil =>
    exact ⟨0, fun st => by simp [renderAttrPhase, attrKids_nil, String.join]⟩
  | cons head rest ih =>
    obtain ⟨k, hk⟩ := ih
    match head with
    | none =>
      exact ⟨k, fun st => by
        simp only [renderAttrPhase, attrKids_none]; exact hk st⟩
    | some (.attr a v) =>
      obtain ⟨ka, ha⟩ := renderAttr_shift a v
      refine ⟨ka + k, fun st => ?_⟩
      have step : renderAttrPhase (some (Node.attr a v) :: rest) okSink st
          = andThen (renderAttr a v okSink st) fun st =>
              renderAttrPhase rest okSink st := by
        simp [renderAttrPhase]
      rw [step, ha st, andThen_ok, hk]
      simp only [attrKids_some, Node.isAttr, if_true, List.map_cons,
        join_cons, renderString_attr, Prod.mk.injEq, WState.mk.injEq,
        and_true]
      exact ⟨by simp [String.append_assoc], by omega⟩
    | some (.element nm vd ch) =>
      exact ⟨k, fun st => by
        simpa [renderAttrPhase, attrKids_some, Node.isAttr] using hk st⟩
    | some (.safe s) =>
      exact ⟨k, fun st => by
        simpa [renderAttrPhase, attrKids_some, Node.isAttr] using hk st⟩
    | some (.raw s) =>
      exact ⟨k, fun st => by
        simpa [renderAttrPhase, attrKids_some, Node.isAttr] using hk st⟩
    | some (.group g) =>
      exact ⟨k, fun st => by
        simpa [renderAttrPhase, attrKids_some, Node.isAttr] using hk st⟩
    | some (.doctype d) =>
      exact ⟨k, fun st => by
        simpa [renderAttrPhase, attrKids_some, Node.isAttr] using hk st⟩

theorem optList_shift (cs : List (Option Node))
    (h : ∀ m : Node, some m ∈ cs → RenderOK m) :
    ∃ k, ShiftOK (renderOptList cs okSink)
      (String.join ((kids cs).map renderString)) k := by
  induction cs with
  | nil => exact ⟨0, fun st => by simp [renderOptList, kids, String.join]⟩
  | cons head rest ih =>
    obtain ⟨k, hk⟩ := ih (fun m hm => h m (List.mem_cons_of_mem _ hm))
    match head with
    | none =>
      exact ⟨k, fun st => by
        simp only [renderOptList]
        simpa [kids] using hk st⟩
    | some n =>
      obtain ⟨kn, hn⟩ := h n (List.mem_cons_self _ _)
      refine ⟨kn + k, fun st => ?_⟩
      have step : renderOptList (some n :: rest) okSink st
          = andThen (render n okSink st) fun st =>
              renderOptList rest okSink st := by
        simp [renderOptList]
      rw [step, hn st, andThen_ok, hk]
      simp only [kids_some, List.map_cons, join_cons, Prod.mk.injEq,
        WState.mk.injEq, and_true]
      exact ⟨by simp [String.append_assoc], by omega⟩

theorem childPhase_shift (cs : List (Option Node))
    (h : ∀ m : Node, some m ∈ cs → RenderOK m) :
    ∃ k, ShiftOK (renderChildPhase cs okSink)
      (String.join ((contentKids cs).map renderString)) k := by
  induction cs with
  | nil =>
    exact ⟨0, fun st => by simp [renderChildPhase, contentKids_nil, String.join]⟩
  | cons head rest ih =>
    obtain ⟨k, hk⟩ := ih (fun m hm => h m (List.mem_cons_of_mem _ hm))
    match head with
    | none =>
      exact ⟨k, fun st => by
        simp only [renderChildPhase, contentKids_none]; exact hk st⟩
    | some (.attr a v) =>
      exact ⟨k, fun st => by
        simpa [renderChildPhase, contentKids_some, Node.isAttr] using hk st⟩
    | some (.element nm vd ch) =>
      obtain ⟨kn, hn⟩ := h (.element nm vd ch) (List.mem_cons_self _ _)
      refine ⟨kn + k, fun st => ?_⟩
      have step : renderChildPhase (some (Node.element nm vd ch) :: rest) okSink st
          = andThen (render (Node.element nm vd ch) okSink st) fun st =>
              renderChildPhase rest okSink st := by
        simp [renderChildPhase]
      rw [step, hn st, andThen_ok, hk]
      simp only [contentKids_some, Node.isAttr, List.map_cons, join_cons,
        if_false, Bool.false_eq_true, Prod.mk.injEq, WState.mk.injEq, and_true]
      exact ⟨by simp [String.append_assoc], by omega⟩
    | some (.safe s) =>
      obtain ⟨kn, hn⟩ := h (.safe s) (List.mem_cons_self _ _)
      refine ⟨kn + k, fun st => ?_⟩
      have step : renderChildPhase (some (Node.safe s) :: rest) okSink st
          = andThen (render (Node.safe s) okSink st) fun st =>
              renderChildPhase rest okSink st := by
        simp [renderChildPhase]
      rw [step, hn st, andThen_ok, hk]
      simp only [contentKids_some, Node.isAttr, List.map_cons, join_cons,
        if_false, Bool.false_eq_true, Prod.mk.injEq, WState.mk.injEq, and_true]
      exact ⟨by simp [String.append_assoc], by omega⟩
    | some (.raw s) =>
      obtain ⟨kn, hn⟩ := h (.raw s) (List.mem_cons_self _ _)
      refine ⟨kn + k, fun st => ?_⟩
      have step : renderChildPhase (some (Node.raw s) :: rest) okSink st
          = andThen (render (Node.raw s) okSink st) fun st =>
              renderChildPhase rest okSink st := by
        simp [renderChildPhase]
      rw [step, hn st, andThen_ok, hk]
      simp only [contentKids_some, Node.isAttr, List.map_cons, join_cons,
        if_false, Bool.false_eq_true, Prod.mk.injEq, WState.mk.injEq, and_true]
      exact ⟨by simp [String.append_assoc], by omega⟩
    | some (.group g) =>
      obtain ⟨kn, hn⟩ := h (.group g) (List.mem_cons_self _ _)
      refine ⟨kn + k, fun st => ?_⟩
      have step : renderChildPhase (some (Node.group g) :: rest) okSink st
          = andThen (render (Node.group g) okSink st) fun st =>
              renderChildPhase rest okSink st := by
        simp [renderChildPhase]
      rw [step, hn st, andThen_ok, hk]
      simp only [contentKids_some, Node.isAttr, List.map_cons, join_cons,
        if_false, Bool.false_eq_true, Prod.mk.injEq, WState.mk.injEq, and_true]
      exact ⟨by simp [String.append_assoc], by omega⟩
    | some (.doctype d) =>
      obtain ⟨kn, hn⟩ := h (.doctype d) (List.mem_cons_self _ _)
      refine ⟨kn + k, fun st => ?_⟩
      have step : renderChildPhase (some (Node.doctype d) :: rest) okSink st
          = andThen (render (Node.doctype d) okSink st) fun st =>
              renderChildPhase rest okSink st := by
        simp [renderChildPhase]
      rw [step, hn st, andThen_ok, hk]
      simp only [contentKids_some, Node.isAttr, List.map_cons, join_cons,
        if_false, Bool.false_eq_true, Prod.mk.injEq, WState.mk.injEq, and_true]
      exact ⟨by simp [String.append_assoc], by omega⟩

theorem renderOK_all (n : Node) : RenderOK n := by
  refine Node.rec (motive_1 := fun n => RenderOK n)
    (motive_2 := fun cs => ∀ m : Node, some m ∈ cs → RenderOK m)
    (motive_3 := fun ob => ∀ m : Node, ob = some m → RenderOK m)
    ?_ ?_ ?_ ?_ ?_ ?_ ?_ ?_ ?_ ?_ n
  · intro name isVoid children ih
    apply toRenderOK
    obtain ⟨k1, h1⟩ := attrPhase_shift children
    obtain ⟨k2, h2⟩ := childPhase_shift children ih
    cases isVoid with
    | true =>
      refine ⟨"<" ++ name
          ++ String.join ((attrKids children).map renderString) ++ ">",
        1 + 1 + k1 + 1, fun st => ?_⟩
      simp only [render, wwrite_ok, andThen_ok, if_true]
      rw [h1]
      simp only [andThen_ok, wwrite_ok, Prod.mk.injEq, WState.mk.injEq,
        and_true]
      exact ⟨by simp [String.append_assoc], by omega⟩
    | false =>
      refine ⟨"<" ++ name
          ++ String.join ((attrKids children).map renderString) ++ ">"
          ++ String.join ((contentKids children).map renderString)
          ++ "</" ++ name ++ ">",
        1 + 1 + k1 + 1 + k2 + 1 + 1 + 1, fun st => ?_⟩
      simp only [render, wwrite_ok, andThen_ok, Bool.false_eq_true, if_false]
      rw [h1]
      simp only [andThen_ok, wwrite_ok]
      rw [h2]
      simp only [andThen_ok, wwrite_ok, Prod.mk.injEq, WState.mk.injEq,
        and_true]
      exact ⟨by simp [String.append_assoc], by omega⟩
  · intro name value
    apply toRenderOK
    obtain ⟨k, h⟩ := renderAttr_shift name value
    exact ⟨attrOut name value, k, fun st => by simpa [render] using h st⟩
  · intro s
    apply toRenderOK
    obtain ⟨k, h⟩ := renderSafe_shift s
    exact ⟨_, k, fun st => by simpa [render] using h st⟩
  · intro s
    apply toRenderOK
    exact ⟨s, 1, fun st => by simp [render, wwrite_ok]⟩
  · intro nodes ih
    apply toRenderOK
    obtain ⟨k, h⟩ := optList_shift nodes ih
    exact ⟨_, k, fun st => by simpa [render] using h st⟩
  · intro sibling ih
    apply toRenderOK
    cases sibling with
    | none =>
      refine ⟨"<!DOCTYPE html>", 1, fun st => ?_⟩
      simp only [render, wwrite_ok, andThen_ok]
    | some m =>
      obtain ⟨k, hm⟩ := ih m rfl
      refine ⟨"<!DOCTYPE html>" ++ renderString m, 1 + k, fun st => ?_⟩
      simp only [render, wwrite_ok, andThen_ok]
      rw [hm]
      simp only [Prod.mk.injEq, WState.mk.injEq, and_true]
      exact ⟨by simp [String.append_assoc], by omega⟩
  · intro m hm
    exact absurd hm (List.not_mem_nil _)
  · intro head tail ihh iht m hm
    rcases List.mem_cons.mp hm with h | h
    · exact ihh m h.symm
    · exact iht m h
  · intro m hm
    exact Option.noConfusion hm
  · intro val ih m hm
    injection hm with h
    subst h
    exact ih

theorem render_ok_eq (n : Node) (st : WState) :
    render n okSink st
      = (⟨st.out ++ renderString n, st.count + renderCnt n⟩, none) := by
  obtain ⟨k, h⟩ := renderOK_all n
  have hk : renderCnt n = k := by
    unfold renderCnt; rw [h st0]; simp [st0]
  rw [h st, hk]

theorem andThen_congr {r : WState × Option Err}
    {f g : WState → WState × Option Err} (h : ∀ st, f st = g st) :
    andThen r f = andThen r g := by
  obtain ⟨st, e⟩ := r
  cases e <;> simp [andThen, h]

theorem renderString_raw (s : String) : renderString (Node.raw s) = s := by
  unfold renderString
  simp [render, wwrite_ok, st0]

theorem renderString_safe (s : String) :
    renderString (Node.safe s)
      = if needsEscaping s then htmlEscapeStr s else s := by
  obtain ⟨k, h⟩ := renderSafe_shift s
  unfold renderString
  have hs : render (Node.safe s) okSink st0 = renderSafe s okSink st0 := by
    simp [render]
  rw [hs, h st0]
  simp [st0]

theorem renderString_safe_esc (s : String) :
    renderString (Node.safe s) = htmlEscapeStr s := by
  rw [renderString_safe]
  by_cases h : needsEscaping s = true
  · simp [h]
  · simp only [Bool.not_eq_true] at h
    simp [h, htmlEscapeStr_id s h]

theorem renderString_element (name : String) (cs : List (Option Node)) :
    renderString (Node.element name false cs)
      = "<" ++ name ++ String.join ((attrKids cs).map renderString) ++ ">"
        ++ String.join ((contentKids cs).map renderString)
        ++ "</" ++ name ++ ">" := by
  obtain ⟨k1, h1⟩ := attrPhase_shift cs
  obtain ⟨k2, h2⟩ := childPhase_shift cs (fun m _ => renderOK_all m)
  unfold renderString
  simp only [render, wwrite_ok, andThen_ok, Bool.false_eq_true, if_false]
  rw [h1]
  simp only [andThen_ok, wwrite_ok]
  rw [h2]
  simp only [andThen_ok, wwrite_ok]
  simp [st0, String.append_assoc]
  rfl

theorem renderString_void (name : String) (cs : List (Option Node)) :
    renderString (Node.element name true cs)
      = "<" ++ name ++ String.join ((attrKids cs).map renderString)
        ++ ">" := by
  obtain ⟨k1, h1⟩ := attrPhase_shift cs
  unfold renderString
  simp only [render, wwrite_ok, andThen_ok, if_true]
  rw [h1]
  simp only [andThen_ok, wwrite_ok]
  simp [st0, String.append_assoc]
  rfl

theorem renderString_doctype (sib : Option Node) :
    renderString (Node.doctype sib)
      = "<!DOCTYPE html>"
        ++ (match sib with | some m => renderString m | none => "") := by
  cases sib with
  | none =>
    unfold renderString
    simp [render, wwrite_ok, andThen_ok, st0]
  | some m =>
    obtain ⟨k, hm⟩ := renderOK_all m
    unfold renderString
    simp only [render, wwrite_ok, andThen_ok]
    rw [hm]
    simp [st0, String.append_assoc]
    rfl

theorem renderString_group_single (n : Node) :
    renderString (Node.group [some n]) = renderString n := by
  unfold renderString
  obtain ⟨k, h⟩ := renderOK_all n
  have hs : render (Node.group [some n]) okSink st0
      = andThen (render n okSink st0) fun st =>
          renderOptList [] okSink st := by
    simp [render, renderOptList]
  rw [hs, h st0, andThen_ok]
  simp [renderOptList, st0]

theorem optList_skip_none (l1 l2 : List (Option Node)) (sink : Sink)
    (st : WState) :
    renderOptList (l1 ++ none :: l2) sink st
      = renderOptList (l1 ++ l2) sink st := by
  induction l1 generalizing st with
  | nil => simp [renderOptList]
  | cons head rest ih =>
    cases head with
    | none => simp only [List.cons_append, renderOptList]; exact ih st
    | some n =>
      simp only [List.cons_append, renderOptList]
      exact andThen_congr ih

theorem attrPhase_skip_none (l1 l2 : List (Option Node)) (sink : Sink)
    (st : WState) :
    renderAttrPhase (l1 ++ none :: l2) sink st
      = renderAttrPhase (l1 ++ l2) sink st := by
  induction l1 generalizing st with
  | nil => simp [renderAttrPhase]
  | cons head rest ih =>
    cases head with
    | none => simp only [List.cons_append, renderAttrPhase]; exact ih st
    | some n =>
      cases n with
      | attr a v =>
        simp only [List.cons_append, renderAttrPhase]
        exact andThen_congr ih
      | element nm vd ch =>
        simp only [List.cons_append, renderAttrPhase]; exact ih st
      | safe s => simp only [List.cons_append, renderAttrPhase]; exact ih st
      | raw s => simp only [List.cons_append, renderAttrPhase]; exact ih st
      | group g => simp only [List.cons_append, renderAttrPhase]; exact ih st
      | doctype d =>
        simp only [List.cons_append, renderAttrPhase]; exact ih st

theorem childPhase_skip_none (l1 l2 : List (Option Node)) (sink : Sink)
    (st : WState) :
    renderChildPhase (l1 ++ none :: l2) sink st
      = renderChildPhase (l1 ++ l2) sink st := by
  induction l1 generalizing st with
  | nil => simp [renderChildPhase]
  | cons head rest ih =>
    cases head with
    | none => simp only [List.cons_append, renderChildPhase]; exact ih st
    | some n =>
      cases n with
      | attr a v =>
        simp only [List.cons_append, renderChildPhase]; exact ih st
      | element nm vd ch =>
        simp only [List.cons_append, renderChildPhase]
        exact andThen_congr ih
      | safe s =>
        simp only [List.cons_append, renderChildPhase]
        exact andThen_congr ih
      | raw s =>
        simp only [List.cons_append, renderChildPhase]
        exact andThen_congr ih
      | group g =>
        simp only [List.cons_append, renderChildPhase]
        exact andThen_congr ih
      | doctype d =>
        simp only [List.cons_append, renderChildPhase]
        exact andThen_congr ih

theorem attrPhase_filter (cs : List (Option Node)) (sink : Sink)
    (st : WState) :
    renderAttrPhase (attrEntriesOnly cs) sink st
      = renderAttrPhase cs sink st := by
  induction cs generalizing st with
  | nil => rfl
  | cons head rest ih =>
    cases head with
    | none =>
      have he : attrEntriesOnly (none :: rest) = attrEntriesOnly rest := by
        simp [attrEntriesOnly, List.filter_cons]
      rw [he]
      simp only [renderAttrPhase]
      exact ih st
    | some n =>
      cases n with
      | attr a v =>
        have he : attrEntriesOnly (some (Node.attr a v) :: rest)
            = some (Node.attr a v) :: attrEntriesOnly rest := by
          simp [attrEntriesOnly, List.filter_cons, Node.isAttr]
        rw [he]
        simp only [renderAttrPhase]
        exact andThen_congr ih
      | element nm vd ch =>
        have he : attrEntriesOnly (some (Node.element nm vd ch) :: rest)
            = attrEntriesOnly rest := by
          simp [attrEntriesOnly, List.filter_cons, Node.isAttr]
        rw [he]
        simp only [renderAttrPhase]
        exact ih st
      | safe s =>
        have he : attrEntriesOnly (some (Node.safe s) :: rest)
            = attrEntriesOnly rest := by
          simp [attrEntriesOnly, List.filter_cons, Node.isAttr]
        rw [he]
        simp only [renderAttrPhase]
        exact ih st
      | raw s =>
        have he : attrEntriesOnly (some (Node.raw s) :: rest)
            = attrEntriesOnly rest := by
          simp [attrEntriesOnly, List.filter_cons, Node.isAttr]
        rw [he]
        simp only [renderAttrPhase]
        exact ih st
      | group g =>
        have he : attrEntriesOnly (some (Node.group g) :: rest)
            = attrEntriesOnly rest := by
          simp [attrEntriesOnly, List.filter_cons, Node.isAttr]
        rw [he]
        simp only [renderAttrPhase]
        exact ih st
      | doctype d =>
        have he : attrEntriesOnly (some (Node.doctype d) :: rest)
            = attrEntriesOnly rest := by
          simp [attrEntriesOnly, List.filter_cons, Node.isAttr]
        rw [he]
        simp only [renderAttrPhase]
        exact ih st

theorem andThen_unit (r : WState × Option Err) :
    andThen r (fun st => (st, none)) = r := by
  obtain ⟨st, e⟩ := r
  cases e <;> simp [andThen]

theorem element_void_discard (name : String) (cs : List (Option Node))
    (sink : Sink) (st : WState) :
    render (Node.element name true cs) sink st
      = render (Node.element name true (attrEntriesOnly cs)) sink st := by
  simp only [render, if_true]
  apply andThen_congr; intro st1
  apply andThen_congr; intro st2
  rw [attrPhase_filter]

theorem element_skip_none (name : String) (isVoid : Bool)
    (l1 l2 : List (Option Node)) (sink : Sink) (st : WState) :
    render (Node.element name isVoid (l1 ++ none :: l2)) sink st
      = render (Node.element name isVoid (l1 ++ l2)) sink st := by
  cases isVoid with
  | true =>
    simp only [render, if_true]
    apply andThen_congr; intro st1
    apply andThen_congr; intro st2
    rw [attrPhase_skip_none]
  | false =>
    simp only [render, Bool.false_eq_true, if_false]
    apply andThen_congr; intro st1
    apply andThen_congr; intro st2
    rw [attrPhase_skip_none]
    apply andThen_congr; intro st3
    apply andThen_congr; intro st4
    rw [childPhase_skip_none]

/-- C1: the claim states that rendering is fail-fast on every path, in
particular for EscapedText and attribute values on the escaped path.
Evaluating the embedded code at the failing input of the repository
test suite (attribute id with value lt, sink failing on its 4th write,
0-based index 3) shows the opposite: the error raised inside
`template.HTMLEscape` is ignored, the remaining writes (including the
closing quote) still happen, and `Render` returns no error.  The same
happens for EscapedText whose very first escape write fails: the
replacement writes continue and no error is reported. -/
theorem c1_escaped_path_swallows_error :
    render (Node.attr "id" "<")
        (failNthSink 3 "writer error from htmlAttr test") st0
      = (⟨" id=\"&lt;\"", 7⟩, none)
    ∧ render (Node.safe "<a") (failNthSink 0 "sink write error") st0
      = (⟨"&lt;a", 3⟩, none) := by
  exact ⟨rfl, rfl⟩

/-- C2 counterexample: the source replaces NUL by the Unicode
replacement character U+FFFD, which does not have the form of an HTML
character entity (it does not start with an ampersand), so NUL is not
replaced by a "standard HTML entity equivalent" as the claim states. -/
theorem c2_nul_replacement_not_entity :
    renderString (Node.safe (String.singleton (Char.ofNat 0))) = "�"
    ∧ isEntityForm "�" = false := by
  exact ⟨rfl, rfl⟩

/-- C2 (amended): rendering EscapedText replaces every character by
its `escOne` image: the five characters apostrophe, double quote, `&`,
`<`, `>` become their HTML entity equivalents `&#39;`, `&#34;`,
`&amp;`, `&lt;`, `&gt;`, while NUL becomes the Unicode replacement
character U+FFFD (not an entity); no other character is ever altered.
RawText writes its string verbatim.  Hence EscapedText and RawText of
a string free of those six characters produce identical bytes. -/
theorem c2_escape_exactly (s : String) :
    renderString (Node.safe s) = String.join (s.data.map escOne)
    ∧ renderString (Node.raw s) = s
    ∧ escOne (Char.ofNat 39) = "&#39;"
    ∧ escOne (Char.ofNat 34) = "&#34;"
    ∧ escOne (Char.ofNat 38) = "&amp;"
    ∧ escOne (Char.ofNat 60) = "&lt;"
    ∧ escOne (Char.ofNat 62) = "&gt;"
    ∧ escOne (Char.ofNat 0) = "�"
    ∧ (∀ c : Char, c ∉ escapeSet → escOne c = String.singleton c)
    ∧ (needsEscaping s = false
        → renderString (Node.safe s) = renderString (Node.raw s)) := by
  refine ⟨renderString_safe_esc s, renderString_raw s,
    rfl, rfl, rfl, rfl, rfl, rfl, ?_, ?_⟩
  · intro c hc
    simp [escOne, escRepl_eq_none c hc]
  · intro h
    rw [renderString_safe, renderString_raw]
    simp [h]

/-- C2 witness: the amended theorem applied at concrete inputs. -/
theorem c2_escape_exactly_witness :
    renderString (Node.safe "a<b") = "a&lt;b"
    ∧ escOne (Char.ofNat 97) = String.singleton (Char.ofNat 97)
    ∧ renderString (Node.safe "ab") = renderString (Node.raw "ab") := by
  refine ⟨?_, ?_, ?_⟩
  · rw [(c2_escape_exactly "a<b").1]; rfl
  · exact (c2_escape_exactly "x").2.2.2.2.2.2.2.2.1 (Char.ofNat 97)
      (by decide)
  · exact (c2_escape_exactly "ab").2.2.2.2.2.2.2.2.2 (by decide)

/-- C8 counterexample: the shared EmptyNode sentinel is `htmlRaw("")`,
whose render issues one (zero-length) write call; on a sink whose
every write call fails, that call returns the sink error, so rendering
EmptyNode does not return "no error" for every sink as the claim
states (it does write zero bytes). -/
theorem c8_empty_node_error_on_failing_sink :
    render emptyNode (allFailSink "sink write error") st0
      = (⟨"", 1⟩, some "sink write error") := by
  exact rfl

/-- C8 (amended): rendering the shared EmptyNode sentinel issues
exactly one zero-length write call: it appends zero bytes for every
sink and returns exactly what the sink answers for that call — no
error whenever the call succeeds, the sink error when it fails.  `If`
with a false condition returns the shared sentinel, and with a true
condition returns its argument. -/
theorem c8_empty_node (sink : Sink) (st : WState) (a : Node) :
    (render emptyNode sink st).1.out = st.out
    ∧ render emptyNode sink st
        = (⟨st.out, st.count + 1⟩, sink.failAt st.count)
    ∧ ifNode false a = emptyNode
    ∧ ifNode true a = a := by
  have h : render emptyNode sink st
      = (⟨st.out, st.count + 1⟩, sink.failAt st.count) := by
    show wwrite sink "" st = _
    unfold wwrite
    cases hf : sink.failAt st.count <;> simp [hf]
  exact ⟨by rw [h], h, rfl, rfl⟩

/-- C3: for every non-void element with an arbitrary child list that
freely mixes Attribute nodes with other node kinds, rendering emits
`<` + tag name, all Attribute children in relative order, `>`, all
non-Attribute children in relative order, and `</` + tag name + `>`,
regardless of where the Attribute children sit in the child list. -/
theorem c3_attr_content_ordering (name : String) (cs : List (Option Node)) :
    renderString (Node.element name false cs)
      = "<" ++ name ++ String.join ((attrKids cs).map renderString) ++ ">"
        ++ String.join ((contentKids cs).map renderString)
        ++ "</" ++ name ++ ">" :=
  renderString_element name cs

/-- C4: an element constructed void renders only `<` + tag name +
attribute children + `>`: the byte output has no closing tag, and for
every sink the render is the same as if every non-Attribute child had
been removed from the child list — discarded silently, not an error. -/
theorem c4_void_discards_content (name : String) (cs : List (Option Node)) :
    renderString (Node.element name true cs)
      = "<" ++ name ++ String.join ((attrKids cs).map renderString) ++ ">"
    ∧ ∀ (sink : Sink) (st : WState),
        render (Node.element name true cs) sink st
          = render (Node.element name true (attrEntriesOnly cs)) sink st :=
  ⟨renderString_void name cs,
   fun sink st => element_void_discard name cs sink st⟩

/-- C7: rendering an attribute writes a space then the name; an empty
value stops there (bare boolean attribute); otherwise an equals sign,
an opening double quote, the value — escaped exactly when it contains
one of the six characters of `escapeSet` (apostrophe, double quote,
ampersand, less-than, greater-than, NUL), verbatim otherwise — and a
closing double quote. -/
theorem c7_attr_value_policy (name value : String) :
    renderString (Node.attr name value)
      = (if value = "" then " " ++ name
         else " " ++ name ++ "=\"" ++
           (if needsEscaping value then htmlEscapeStr value else value)
           ++ "\"")
    ∧ (needsEscaping value = true ↔ ∃ c ∈ value.data, c ∈ escapeSet) := by
  constructor
  · simpa [attrOut] using renderString_attr name value
  · simp [needsEscaping, List.any_eq_true]

/-- C10: an Attribute placed anywhere other than an Element child list
renders through the plain Node contract and emits its attribute syntax
directly into the content byte stream: a Group entry, a Doctype
sibling, a Mapper result and a top-level render all produce exactly
the bytes `attrOut` (space, name, and the optional quoted value),
unsuppressed and not escaped as markup. -/
theorem c10_attr_in_content_stream (a v : String) (sink : Sink)
    (st : WState) :
    render (Node.group [some (Node.attr a v)]) sink st
      = render (Node.attr a v) sink st
    ∧ renderString (Node.attr a v) = attrOut a v
    ∧ renderString (Node.group [some (Node.attr a v)]) = attrOut a v
    ∧ renderString (Node.doctype (some (Node.attr a v)))
        = "<!DOCTYPE html>" ++ attrOut a v
    ∧ (renderMap [0] (fun _ : Nat => some (Node.attr a v)) okSink st0).1.out
        = attrOut a v := by
  refine ⟨?_, renderString_attr a v, ?_, ?_, ?_⟩
  · show renderOptList [some (Node.attr a v)] sink st = _
    have h : renderOptList [some (Node.attr a v)] sink st
        = andThen (render (Node.attr a v) sink st) fun st =>
            renderOptList [] sink st := by
      simp [renderOptList]
    rw [h]
    have h2 : (fun st => renderOptList ([] : List (Option Node)) sink st)
        = fun st => (st, none) := by
      funext st; simp [renderOptList]
    rw [h2, andThen_unit]
  · rw [renderString_group_single, renderString_attr]
  · rw [renderString_doctype]
    simp [renderString_attr]
  · show (renderOptList ([some (Node.attr a v)]) okSink st0).1.out = _
    have h : renderOptList [some (Node.attr a v)] okSink st0
        = render (Node.group [some (Node.attr a v)]) okSink st0 := by
      simp [render]
    rw [h]
    show renderString (Node.group [some (Node.attr a v)]) = _
    rw [renderString_group_single, renderString_attr]

/-- C5: the needs-escaping check is a pure fast path: for every input
string the bytes written are the same whether the check is consulted
(the source `renderSafe` / `renderAttr`) or the escape routine always
runs (`renderSafeNoCheck` / `renderAttrNoCheck`, modelled from the
spec); in particular escaping a string containing none of the target
characters is the identity. -/
theorem c5_fastpath_equiv (s nm v : String) (st : WState) :
    (renderSafeNoCheck s okSink st).1.out = (renderSafe s okSink st).1.out
    ∧ (renderAttrNoCheck nm v okSink st).1.out
        = (renderAttr nm v okSink st).1.out
    ∧ (needsEscaping s = false → htmlEscapeStr s = s) := by
  refine ⟨?_, ?_, fun h => htmlEscapeStr_id s h⟩
  · by_cases h : needsEscaping s = true
    · simp [renderSafeNoCheck, renderSafe, h]
    · simp only [Bool.not_eq_true] at h
      simp [renderSafeNoCheck, renderSafe, h, htmlEscapeW_ok, wwrite_ok,
        htmlEscapeStr_id s h]
  · by_cases hv : v = ""
    · simp [renderAttrNoCheck, renderAttr, hv]
    · by_cases he : needsEscaping v = true
      · simp [renderAttrNoCheck, renderAttr, hv, he]
      · simp only [Bool.not_eq_true] at he
        simp [renderAttrNoCheck, renderAttr, hv, he, htmlEscapeW_ok,
          wwrite_ok, andThen_ok, htmlEscapeStr_id v he,
          String.append_assoc]

/-- C5 witness: the fast-path equivalence applied at concrete input. -/
theorem c5_fastpath_equiv_witness :
    needsEscaping "ab" = false ∧ htmlEscapeStr "ab" = "ab" :=
  ⟨by decide, (c5_fastpath_equiv "ab" "x" "y" st0).2.2 (by decide)⟩

/-- C6: a nil Node entry renders as zero bytes with no error and the
surrounding render proceeds exactly as if the entry were absent, in
every position where a Node is expected: a Group entry, an Element
child, a Doctype sibling (rendering stops after the literal), and a
Node produced by the transform of a Mapper. -/
theorem c6_nil_renders_as_absent {α : Type} (l1 l2 : List (Option Node))
    (name : String) (isVoid : Bool) (sink : Sink) (st : WState)
    (items1 items2 : List α) (x : α) (fn : α → Option Node) :
    render (Node.group (l1 ++ none :: l2)) sink st
      = render (Node.group (l1 ++ l2)) sink st
    ∧ render (Node.element name isVoid (l1 ++ none :: l2)) sink st
        = render (Node.element name isVoid (l1 ++ l2)) sink st
    ∧ render (Node.doctype none) sink st
        = wwrite sink "<!DOCTYPE html>" st
    ∧ (fn x = none →
        renderMap (items1 ++ x :: items2) fn sink st
          = renderMap (items1 ++ items2) fn sink st) := by
  refine ⟨?_, element_skip_none name isVoid l1 l2 sink st, ?_, ?_⟩
  · show renderOptList (l1 ++ none :: l2) sink st
      = renderOptList (l1 ++ l2) sink st
    exact optList_skip_none l1 l2 sink st
  · show andThen (wwrite sink "<!DOCTYPE html>" st) (fun st => (st, none))
      = wwrite sink "<!DOCTYPE html>" st
    exact andThen_unit _
  · intro h
    show renderOptList ((items1 ++ x :: items2).map fn) sink st
      = renderOptList ((items1 ++ items2).map fn) sink st
    rw [List.map_append, List.map_cons, h, List.map_append]
    exact optList_skip_none _ _ sink st

/-- C6 witness: the nil-skipping theorem applied at concrete input. -/
theorem c6_nil_renders_as_absent_witness :
    (fun _ : Nat => (none : Option Node)) 0 = none
    ∧ renderMap ([] ++ 0 :: []) (fun _ : Nat => (none : Option Node))
        okSink st0
      = renderMap (([] : List Nat) ++ [])
          (fun _ : Nat => (none : Option Node)) okSink st0 :=
  ⟨rfl,
   (c6_nil_renders_as_absent [] [] "div" false okSink st0 [] [] 0
      (fun _ : Nat => (none : Option Node))).2.2.2 rfl⟩

/-- C9 counterexample: when the render fails after bytes were already
written, the adapter cannot emit a 500-status response: the first body
write already committed status 200 implicitly, `http.Error`-style
`WriteHeader(500)` is a superfluous call that `net/http` ignores, and
the error text is appended after the partial output.  Concretely, a
`div` element against a sink failing the second write yields status
200, not 500, with the partial byte kept. -/
theorem c9_partial_render_keeps_status_200 :
    handler (some (Node.element "div" false []))
        (failNthSink 1 "broken pipe") rw0
      = ⟨some 200, ⟨"<Internal Server Error\n", 3⟩⟩
    ∧ (handler (some (Node.element "div" false []))
        (failNthSink 1 "broken pipe") rw0).status ≠ some 500 := by
  exact ⟨rfl, by decide⟩

/-- C9 (amended): the adapter invokes the callback once (the embedded
`handler` consumes the single value the callback returned); a nil Node
is answered by `http.Error` with status 500 and the plain-text line
"Internal Server Error"; a render error is answered the same way, but
the 500 status takes effect only when the failed render wrote nothing
— otherwise the implicitly committed 200 stands — and the error line
is appended after whatever the partial render already wrote, which is
never undone or rewritten; a successful render is the response. -/
theorem c9_adapter_error_handling :
    (∀ sink : Sink, sink.failAt 0 = none →
      handler none sink rw0 = ⟨some 500, ⟨statusText500 ++ "\n", 1⟩⟩)
    ∧ (∀ (n : Node) (sink : Sink) (e : Err),
        (runNode n sink rw0).2 = some e →
        (handler (some n) sink rw0).status
            = (if (runNode n sink rw0).1.w.count = 0 then some 500
               else (runNode n sink rw0).1.status)
        ∧ (handler (some n) sink rw0).w.count
            = (runNode n sink rw0).1.w.count + 1
        ∧ (handler (some n) sink rw0).w.out
            = (runNode n sink rw0).1.w.out
              ++ (if sink.failAt (runNode n sink rw0).1.w.count = none
                  then statusText500 ++ "\n" else ""))
    ∧ (∀ (n : Node) (sink : Sink),
        (runNode n sink rw0).2 = none →
        handler (some n) sink rw0 = (runNode n sink rw0).1) := by
  refine ⟨?_, ?_, ?_⟩
  · intro sink h
    simp only [handler]
    simp [httpError, writeHeader, rw0, st0, wwrite, h]
  · intro n sink e he
    rcases hr : runNode n sink rw0 with ⟨⟨status1, w1⟩, e0⟩
    rw [hr] at he
    simp only at he
    subst he
    have hh : handler (some n) sink rw0
        = httpError sink 500 statusText500 ⟨status1, w1⟩ := by
      simp [handler, hr]
    rw [hh]
    simp only
    have hst : status1 = if 0 < w1.count then some 200 else none := by
      have h2 : runNode n sink rw0 = (⟨status1, w1⟩, some e) := hr
      unfold runNode at h2
      rcases hw : render n sink rw0.w with ⟨w, e2⟩
      rw [hw] at h2
      simp only at h2
      by_cases hc : rw0.w.count < w.count
      · simp only [hc, if_true, Prod.mk.injEq, RWState.mk.injEq] at h2
        rw [← h2.1.1, ← h2.1.2]
        simp [rw0, st0] at hc
        simp [writeHeader, rw0, hc]
      · simp only [hc, if_false, Prod.mk.injEq, RWState.mk.injEq] at h2
        rw [← h2.1.1, ← h2.1.2]
        simp [rw0, st0] at hc
        simp [rw0]
        simp [hc]
    by_cases hc : w1.count = 0
    · have h3 : status1 = none := by simp [hst, hc]
      subst h3
      refine ⟨?_, ?_, ?_⟩
      · simp [httpError, writeHeader, hc]
      · simp only [httpError, writeHeader]
        cases hf : sink.failAt w1.count <;> simp [wwrite, hf]
      · simp only [httpError, writeHeader]
        cases hf : sink.failAt w1.count <;> simp [wwrite, hf]
    · have hpos : 0 < w1.count := Nat.pos_of_ne_zero hc
      have h3 : status1 = some 200 := by simp [hst, hpos]
      subst h3
      refine ⟨?_, ?_, ?_⟩
      · simp [httpError, writeHeader, hc]
      · simp only [httpError, writeHeader]
        cases hf : sink.failAt w1.count <;> simp [wwrite, hf]
      · simp only [httpError, writeHeader]
        cases hf : sink.failAt w1.count <;> simp [wwrite, hf]
  · intro n sink hn
    rcases hr : runNode n sink rw0 with ⟨rw1, e0⟩
    rw [hr] at hn
    simp only at hn
    subst hn
    simp [handler, hr]

/-- C9 witness: the amended adapter theorem applied at concrete
inputs: the nil case on a healthy sink, a mid-stream render failure,
and a successful render. -/
theorem c9_adapter_error_handling_witness :
    handler none okSink rw0 = ⟨some 500, ⟨statusText500 ++ "\n", 1⟩⟩
    ∧ (handler (some (Node.element "div" false []))
        (failNthSink 1 "broken pipe") rw0).status = some 200
    ∧ handler (some (Node.raw "hi")) okSink rw0 = ⟨some 200, ⟨"hi", 1⟩⟩ := by
  refine ⟨?_, ?_, ?_⟩
  · exact c9_adapter_error_handling.1 okSink rfl
  · have h := (c9_adapter_error_handling.2.1 (Node.element "div" false [])
      (failNthSink 1 "broken pipe") "broken pipe" (by decide)).1
    rw [h]
    decide
  · have h := c9_adapter_error_handling.2.2 (Node.raw "hi") okSink (by decide)
    rw [h]
    decide

end RioDom
